import Mathlib

set_option maxRecDepth 100000
set_option maxHeartbeats 2000000

/-!
Shallow embedding of the subnet-calculation core of the repository
(src/ch-14.py, class SubnetAnalyzer) and of the classful resolver
(src/program.py). Octet values are modelled as Nat: Python integers are
unbounded, but every code path embedded here receives octets validated to
the range 0..255, and the embedding states validity hypotheses explicitly.
The one place where a value below zero is reachable, get_usable_range,
is modelled over Int.
-/

/-- Binary digits of n, most significant first, as produced by the Python
expression bin(n) with the 0b prefix removed; bin(0) gives the single
digit 0. The fuel argument makes the recursion structural; fuel n+1 is
always enough since the argument at least halves each step. -/
def natToBitsAux : Nat → Nat → List Char
  | 0, _ => []
  | fuel + 1, n =>
    if n < 2 then [if n = 1 then '1' else '0']
    else natToBitsAux fuel (n / 2) ++ [if n % 2 = 1 then '1' else '0']

/-- Binary digits of n, most significant first, no padding: bin(n)[2:]. -/
def natToBits (n : Nat) : List Char := natToBitsAux (n + 1) n

/-- One octet rendered as bin(octet)[2:].zfill(8): the binary digits,
left padded with 0 characters to width 8. -/
def octetBits (o : Nat) : List Char :=
  let b := natToBits o
  List.replicate (8 - b.length) '0' ++ b

/-- Models to_binary from src/ch-14.py: the concatenation, octet by octet,
of bin(octet)[2:].zfill(8). -/
def to_binary (ip_or_mask : List Nat) : List Char :=
  ip_or_mask.flatMap octetBits

/-- The six ASCII whitespace characters that the Python int conversion
strips from both ends of its argument. -/
def isPySpace (c : Char) : Bool :=
  c == ' ' || c == '\t' || c == '\n' || c == '\r' || c == '\x0b' || c == '\x0c'

/-- The leading and trailing whitespace removal performed by int(s, 2). -/
def pyStrip (s : List Char) : List Char :=
  ((s.dropWhile isPySpace).reverse.dropWhile isPySpace).reverse

/-- The digit part of a base 2 int literal after its first digit: binary
digits with single underscores permitted strictly between digits, folded
most significant first onto the accumulator. -/
def parseBinRest : List Char → Nat → Option Nat
  | [], acc => some acc
  | c :: r, acc =>
    if c == '0' then parseBinRest r (2 * acc)
    else if c == '1' then parseBinRest r (2 * acc + 1)
    else if c == '_' then
      match r with
      | [] => none
      | d :: r2 =>
        if d == '0' then parseBinRest r2 (2 * acc)
        else if d == '1' then parseBinRest r2 (2 * acc + 1)
        else none
    else none

/-- The digit part of a base 2 int literal: at least one binary digit,
not preceded by an underscore. -/
def parseBinStart : List Char → Option Nat
  | [] => none
  | c :: r =>
    if c == '0' then parseBinRest r 0
    else if c == '1' then parseBinRest r 1
    else none

/-- The digit part directly after a 0b or 0B marker, where Python also
allows one single underscore before the first digit. -/
def parseBinPrefixed (t : List Char) : Option Nat :=
  if t.headD ' ' == '_' then parseBinStart t.tail else parseBinStart t

/-- One optional leading plus or minus sign of an int literal: the flag
records whether the sign was a minus. -/
def stripSign (t : List Char) : Bool × List Char :=
  if t.headD ' ' == '+' || t.headD ' ' == '-' then (t.headD ' ' == '-', t.tail)
  else (false, t)

/-- The part of a base 2 int literal after sign and whitespace handling:
one optional 0b or 0B marker followed by the digit run. -/
def parseBody (body : List Char) : Option Nat :=
  if body.headD ' ' == '0' && (body.tail.headD ' ' == 'b' || body.tail.headD ' ' == 'B') then
    parseBinPrefixed body.tail.tail
  else parseBinStart body

/-- Models the Python call int(s, 2) as used by from_binary, for strings
of ASCII characters: surrounding ASCII whitespace is stripped, one
optional plus or minus sign and one optional 0b or 0B marker (with one
optional underscore after it) are accepted, and the digits are binary
with single underscores permitted between digits; everything else raises
ValueError, modelled as the error branch. One documented divergence: a
minus sign in front of a nonzero magnitude yields a negative number in
Python, which has no representation among octet values, and the model
reports an error there; no call site of this program reaches that case,
or indeed any of the sign, marker, underscore and whitespace forms,
because from_binary is only ever applied to strings of 0 and 1 digits.
Unicode digit and whitespace variants accepted by Python cannot occur in
the strings of this program and are not modelled. -/
def int_base2 (s : List Char) : Except String Nat :=
  match parseBody (stripSign (pyStrip s)).2 with
  | none => .error "invalid literal for int with base 2"
  | some v =>
    if (stripSign (pyStrip s)).1 = true ∧ v ≠ 0 then
      .error "negative value outside the octet model"
    else .ok v

/-- Models the Python slice s[i : i+n]: out of range indices clamp,
never raise. -/
def pyslice (s : List Char) (i n : Nat) : List Char := (s.drop i).take n

/-- Models from_binary from src/ch-14.py: the loop
for i in range(0, 32, 8) unrolled; each 8 character slice is converted
with int(slice, 2) and the first ValueError aborts the call. -/
def from_binary (binary_str : List Char) : Except String (List Nat) := do
  let o0 ← int_base2 (pyslice binary_str 0 8)
  let o1 ← int_base2 (pyslice binary_str 8 8)
  let o2 ← int_base2 (pyslice binary_str 16 8)
  let o3 ← int_base2 (pyslice binary_str 24 8)
  return [o0, o1, o2, o3]

/-- One step of the binary subnet id loop in src/ch-14.py: copy the ip
bit where the mask bit is 1, else produce 0. -/
def subnetBit (ipc mc : Char) : Char := if mc == '1' then ipc else '0'

/-- One step of the binary broadcast loop in src/ch-14.py: copy the ip
bit where the mask bit is 1, else produce 1. -/
def broadcastBit (ipc mc : Char) : Char := if mc == '1' then ipc else '1'

/-- Models binary_subnet_id from src/ch-14.py. The source loop
for i in range(32) walks two 32 character strings in lockstep, which on
the valid inputs (strings of length exactly 32) is the pointwise zipWith
used here; on strings shorter than 32 Python would raise IndexError. -/
def binary_subnet_id (ip mask : List Nat) : Except String (List Nat) :=
  from_binary (List.zipWith subnetBit (to_binary ip) (to_binary mask))

/-- Models binary_broadcast_address from src/ch-14.py, with the same
loop-as-zipWith reading as binary_subnet_id. -/
def binary_broadcast_address (ip mask : List Nat) : Except String (List Nat) :=
  from_binary (List.zipWith broadcastBit (to_binary ip) (to_binary mask))

/-- Models calculate_magic_number from src/ch-14.py: return 256 minus the
mask octet, with no precondition check of any kind. Subtraction is the
truncated Nat subtraction; it agrees with Python for every argument up to
256, which covers every octet value. -/
def calculate_magic_number (mask_octet : Nat) : Nat := 256 - mask_octet

/-- One iteration of the loop in decimal_subnet_id from src/ch-14.py:
copy the ip octet under a 255 mask octet, produce 0 under a 0 mask octet,
otherwise round the ip octet down to a multiple of the magic number. -/
def decimal_subnet_octet (ipo mo : Nat) : Nat :=
  if mo = 255 then ipo
  else if mo = 0 then 0
  else (ipo / calculate_magic_number mo) * calculate_magic_number mo

/-- Models decimal_subnet_id from src/ch-14.py: the loop
for i in range(4) builds the result octet by octet, which on 4 element
lists is the zipWith used here. -/
def decimal_subnet_id (ip mask : List Nat) : List Nat :=
  List.zipWith decimal_subnet_octet ip mask

/-- One iteration of the loop in decimal_broadcast_address from
src/ch-14.py: copy the subnet id octet under a 255 mask octet, produce
255 under a 0 mask octet, otherwise add magic number minus 1. -/
def decimal_broadcast_octet (so mo : Nat) : Nat :=
  if mo = 255 then so
  else if mo = 0 then 255
  else so + calculate_magic_number mo - 1

/-- Models decimal_broadcast_address from src/ch-14.py; note the source
takes the already computed subnet id, not the ip, as its first argument. -/
def decimal_broadcast_address (subnet_id mask : List Nat) : List Nat :=
  List.zipWith decimal_broadcast_octet subnet_id mask

/-- Models find_interesting_octet from src/ch-14.py: the loop
for i in range(4) returning the first index whose octet is neither 0 nor
255, unrolled; None when every octet is 0 or 255. Indexing a 4 element
mask never leaves the list, so the getD default is unreachable on valid
input. -/
def find_interesting_octet (mask : List Nat) : Option Nat :=
  if ¬(mask.getD 0 0 = 0 ∨ mask.getD 0 0 = 255) then some 0
  else if ¬(mask.getD 1 0 = 0 ∨ mask.getD 1 0 = 255) then some 1
  else if ¬(mask.getD 2 0 = 0 ∨ mask.getD 2 0 = 255) then some 2
  else if ¬(mask.getD 3 0 = 0 ∨ mask.getD 3 0 = 255) then some 3
  else none

/-- Models get_usable_range from src/ch-14.py: copy both lists, add 1 to
the last octet of the subnet id and subtract 1 from the last octet of the
broadcast, unconditionally. Octets are modelled as Int here because the
subtraction can reach minus 1 in Python. -/
def get_usable_range (subnet_id broadcast : List Int) : List Int × List Int :=
  (subnet_id.set 3 (subnet_id.getD 3 0 + 1), broadcast.set 3 (broadcast.getD 3 0 - 1))

/-- The label list built first in draw_number_line from src/ch-14.py:
i times divisor for i in range(255 / divisor + 1), rounding down. -/
def numberLineBase (divisor : Nat) : List Nat :=
  (List.range (255 / divisor + 1)).map (fun i => i * divisor)

/-- Models the boundary label computation of draw_number_line from
src/ch-14.py: the base labels, then 255 appended when the last label is
not already 255. The source reads labels[-1] of a list that is never
empty; getLastD mirrors that read. -/
def draw_number_line_labels (divisor : Nat) : List Nat :=
  let labels := numberLineBase divisor
  if labels.getLastD 0 ≠ 255 then labels ++ [255] else labels

/-- Strict increase of consecutive elements, as a computable check. -/
def strictIncrB : List Nat → Bool
  | [] => true
  | [_] => true
  | a :: b :: r => decide (a < b) && strictIncrB (b :: r)

/-- Every character is the digit 0. -/
def allZerosB : List Char → Bool
  | [] => true
  | c :: r => c == '0' && allZerosB r

/-- The string consists of 1 digits followed by 0 digits: the claim
C1 notion of a contiguous prefix mask, applied to to_binary of the mask. -/
def onesThenZeros : List Char → Bool
  | [] => true
  | c :: r => if c == '1' then onesThenZeros r else (c == '0' && allZerosB r)

/-- Classification labels produced by get_network_class in
src/program.py: the five classes plus the two reserved first octets. -/
inductive NetworkClass where
  | A
  | B
  | C
  | D
  | E
  | Reserved0
  | Reserved127
deriving DecidableEq

/-- Models CLASS_RANGES from src/program.py: the insertion ordered dict
of class letter to inclusive first octet range. -/
def CLASS_RANGES : List (NetworkClass × Nat × Nat) :=
  [(.A, 1, 126), (.B, 128, 191), (.C, 192, 223), (.D, 224, 239), (.E, 240, 255)]

/-- Models RESERVED_PREFIXES from src/program.py: first octet 0 and 127
map to the two reserved labels. -/
def RESERVED_PREFIXES : List (Nat × NetworkClass) :=
  [(0, .Reserved0), (127, .Reserved127)]

/-- Models get_network_class from src/program.py, after get_first_octet
has parsed and validated the dotted decimal string and produced the first
octet value: the reserved table is consulted first, then the class ranges
are scanned in order for one containing the octet. -/
def get_network_class (first_octet : Nat) : Option NetworkClass :=
  match RESERVED_PREFIXES.find? (fun r => r.1 == first_octet) with
  | some r => some r.2
  | none =>
    (CLASS_RANGES.find? (fun r => decide (r.2.1 ≤ first_octet ∧ first_octet ≤ r.2.2))).map
      (fun r => r.1)

deriving instance DecidableEq for Except

/-- Bind on Except propagates a success. -/
@[simp]
theorem except_bind_ok {α β : Type} {ε : Type} (a : α) (f : α → Except ε β) :
    (Except.ok a >>= f) = f a := rfl

/-- Bind on Except propagates a failure. -/
@[simp]
theorem except_bind_error {α β : Type} {ε : Type} (e : ε) (f : α → Except ε β) :
    ((Except.error e : Except ε α) >>= f) = Except.error e := rfl

/-- A list of length 4 is a literal 4 element list. -/
theorem list_len4 {α : Type} {l : List α} (h : l.length = 4) :
    ∃ a b c d, l = [a, b, c, d] := by
  rcases l with _ | ⟨a, l⟩
  · simp at h
  rcases l with _ | ⟨b, l⟩
  · simp at h
  rcases l with _ | ⟨c, l⟩
  · simp at h
  rcases l with _ | ⟨d, l⟩
  · simp at h
  rcases l with _ | ⟨e, l⟩
  · exact ⟨a, b, c, d, rfl⟩
  · simp at h

/-- The whitespace test fails on a binary digit, so dropWhile does
nothing on a string of binary digits. -/
theorem dropWhile_isPySpace_of_binary (l : List Char)
    (hb : ∀ c ∈ l, c = '0' ∨ c = '1') : l.dropWhile isPySpace = l := by
  cases l with
  | nil => rfl
  | cons c r =>
    have hc : isPySpace c = false := by
      rcases hb c (by simp) with rfl | rfl <;> rfl
    simp [List.dropWhile_cons, hc]

/-- Stripping whitespace does nothing on a string of binary digits. -/
theorem pyStrip_of_binary (l : List Char) (hb : ∀ c ∈ l, c = '0' ∨ c = '1') :
    pyStrip l = l := by
  unfold pyStrip
  rw [dropWhile_isPySpace_of_binary l hb,
    dropWhile_isPySpace_of_binary l.reverse (fun c hc => hb c (List.mem_reverse.mp hc)),
    List.reverse_reverse]

/-- The digit run parser succeeds on every string of binary digits. -/
theorem parseBinRest_ok (r : List Char) (hb : ∀ c ∈ r, c = '0' ∨ c = '1') :
    ∀ acc, ∃ v, parseBinRest r acc = some v := by
  induction r with
  | nil => exact fun acc => ⟨acc, rfl⟩
  | cons c r ih =>
    intro acc
    have hr : ∀ x ∈ r, x = '0' ∨ x = '1' := fun x hx => hb x (by simp [hx])
    rcases hb c (by simp) with rfl | rfl
    · obtain ⟨v, hv⟩ := ih hr (2 * acc)
      refine ⟨v, ?_⟩
      rw [parseBinRest.eq_def]
      simp [hv]
    · obtain ⟨v, hv⟩ := ih hr (2 * acc + 1)
      refine ⟨v, ?_⟩
      rw [parseBinRest.eq_def]
      simp [hv]

/-- A successful boolean character check unfolds to the membership
statement used by the symbolic lemmas. -/
theorem all_binary_mem {l : List Char}
    (h : l.all (fun c => c == '0' || c == '1') = true) :
    ∀ c ∈ l, c = '0' ∨ c = '1' := by
  simp only [List.all_eq_true, Bool.or_eq_true, beq_iff_eq] at h
  exact h

/-- On a string of binary digits the full int conversion reduces to the
bare digit run parser: whitespace stripping, sign handling and the 0b
marker all fall away, and the parsed value is returned unchanged. -/
theorem int_base2_eq_parse (s : List Char) (hb : ∀ c ∈ s, c = '0' ∨ c = '1')
    (v : Nat) (hps : parseBinStart s = some v) : int_base2 s = .ok v := by
  cases s with
  | nil => exact Option.noConfusion hps
  | cons c r =>
    have hr : ∀ x ∈ r, x = '0' ∨ x = '1' := fun x hx => hb x (by simp [hx])
    have hstrip : pyStrip (c :: r) = c :: r := pyStrip_of_binary _ hb
    rcases hb c (by simp) with rfl | rfl
    · have hsign1 : (stripSign ('0' :: r)).1 = false := rfl
      have hsign2 : (stripSign ('0' :: r)).2 = '0' :: r := rfl
      have hbody : parseBody ('0' :: r) = some v := by
        rcases r with _ | ⟨d, r2⟩
        · rw [show parseBody ['0'] = parseBinStart ['0'] from rfl, hps]
        · rcases hr d (by simp) with rfl | rfl
          · rw [show parseBody ('0' :: '0' :: r2) = parseBinStart ('0' :: '0' :: r2) from rfl,
              hps]
          · rw [show parseBody ('0' :: '1' :: r2) = parseBinStart ('0' :: '1' :: r2) from rfl,
              hps]
      simp only [int_base2, hstrip, hsign1, hsign2, hbody]
      exact if_neg (by simp)
    · have hsign1 : (stripSign ('1' :: r)).1 = false := rfl
      have hsign2 : (stripSign ('1' :: r)).2 = '1' :: r := rfl
      have hbody : parseBody ('1' :: r) = some v := by
        rw [show parseBody ('1' :: r) = parseBinStart ('1' :: r) from rfl, hps]
      simp only [int_base2, hstrip, hsign1, hsign2, hbody]
      exact if_neg (by simp)

/-- Every valid octet renders to exactly 8 binary characters. -/
theorem octetBits_length : ∀ o < 256, (octetBits o).length = 8 := by decide

/-- Every valid octet renders to a string of binary digits. -/
theorem octetBits_binary :
    ∀ o < 256, (octetBits o).all (fun c => c == '0' || c == '1') = true := by decide

/-- The digit run parser recovers a valid octet from its rendering. -/
theorem parseBinStart_octetBits : ∀ o < 256, parseBinStart (octetBits o) = some o := by decide

/-- Parsing the 8 character rendering of a valid octet recovers it. -/
theorem int_base2_octetBits : ∀ o < 256, int_base2 (octetBits o) = .ok o :=
  fun o ho =>
    int_base2_eq_parse _ (all_binary_mem (octetBits_binary o ho)) o
      (parseBinStart_octetBits o ho)

/-- A valid octet whose bit string is ones followed by zeros takes one of
the nine contiguous mask octet values. -/
theorem contig_octet_mem :
    ∀ m < 256, onesThenZeros (octetBits m) = true →
      m ∈ [0, 128, 192, 224, 240, 248, 252, 254, 255] := by decide

/-- On one octet with a contiguous mask value, the bitwise subnet and
broadcast computations produce binary digit strings whose parses agree
with the decimal magic number rules. -/
theorem octet_methods_agree :
    ∀ a < 256, ∀ m ∈ [0, 128, 192, 224, 240, 248, 252, 254, 255],
      ((List.zipWith subnetBit (octetBits a) (octetBits m)).all
          (fun c => c == '0' || c == '1') = true ∧
        parseBinStart (List.zipWith subnetBit (octetBits a) (octetBits m)) =
          some (decimal_subnet_octet a m)) ∧
      ((List.zipWith broadcastBit (octetBits a) (octetBits m)).all
          (fun c => c == '0' || c == '1') = true ∧
        parseBinStart (List.zipWith broadcastBit (octetBits a) (octetBits m)) =
          some (decimal_broadcast_octet (decimal_subnet_octet a m) m)) := by decide

/-- The int conversion level consequence of octet_methods_agree for the
subnet direction. -/
theorem octet_subnet_int (a : Nat) (ha : a < 256) (m : Nat)
    (hm : m ∈ [0, 128, 192, 224, 240, 248, 252, 254, 255]) :
    int_base2 (List.zipWith subnetBit (octetBits a) (octetBits m)) =
      .ok (decimal_subnet_octet a m) :=
  int_base2_eq_parse _ (all_binary_mem (octet_methods_agree a ha m hm).1.1) _
    (octet_methods_agree a ha m hm).1.2

/-- The int conversion level consequence of octet_methods_agree for the
broadcast direction. -/
theorem octet_broadcast_int (a : Nat) (ha : a < 256) (m : Nat)
    (hm : m ∈ [0, 128, 192, 224, 240, 248, 252, 254, 255]) :
    int_base2 (List.zipWith broadcastBit (octetBits a) (octetBits m)) =
      .ok (decimal_broadcast_octet (decimal_subnet_octet a m) m) :=
  int_base2_eq_parse _ (all_binary_mem (octet_methods_agree a ha m hm).2.1) _
    (octet_methods_agree a ha m hm).2.2

/-- to_binary of a 4 element list is the four octet renderings in order. -/
theorem to_binary_four (a b c d : Nat) :
    to_binary [a, b, c, d] = octetBits a ++ (octetBits b ++ (octetBits c ++ octetBits d)) := by
  simp [to_binary]

/-- allZerosB distributes over append. -/
theorem allZerosB_append (x y : List Char) :
    allZerosB (x ++ y) = (allZerosB x && allZerosB y) := by
  induction x with
  | nil => simp [allZerosB]
  | cons c r ih => simp [allZerosB, ih, Bool.and_assoc]

/-- An all zero string is ones followed by zeros. -/
theorem onesThenZeros_of_allZerosB (y : List Char) (h : allZerosB y = true) :
    onesThenZeros y = true := by
  cases y with
  | nil => rfl
  | cons c r =>
    simp [allZerosB] at h
    simp [onesThenZeros, h.1, h.2]

/-- Unfolding equation for onesThenZeros on a cons cell. -/
theorem onesThenZeros_cons (c : Char) (r : List Char) :
    onesThenZeros (c :: r) =
      if c == '1' then onesThenZeros r else (c == '0' && allZerosB r) := rfl

/-- Contiguity of a concatenation passes to both parts. -/
theorem onesThenZeros_append (x y : List Char) (h : onesThenZeros (x ++ y) = true) :
    onesThenZeros x = true ∧ onesThenZeros y = true := by
  induction x with
  | nil => exact ⟨rfl, h⟩
  | cons c r ih =>
    rw [List.cons_append, onesThenZeros_cons] at h
    rw [onesThenZeros_cons]
    by_cases hc : (c == '1') = true
    · rw [if_pos hc] at h ⊢
      exact ih h
    · rw [if_neg hc] at h ⊢
      rw [allZerosB_append] at h
      simp only [Bool.and_eq_true] at h
      obtain ⟨h0, hzr, hzy⟩ := h
      refine ⟨?_, onesThenZeros_of_allZerosB y hzy⟩
      simp only [Bool.and_eq_true]
      exact ⟨h0, hzr⟩

/-- from_binary on a concatenation of four 8 character blocks parses the
blocks independently. -/
theorem from_binary_concat {L0 L1 L2 L3 : List Char}
    (h0 : L0.length = 8) (h1 : L1.length = 8) (h2 : L2.length = 8) (h3 : L3.length = 8)
    {a b c d : Nat}
    (e0 : int_base2 L0 = .ok a) (e1 : int_base2 L1 = .ok b)
    (e2 : int_base2 L2 = .ok c) (e3 : int_base2 L3 = .ok d) :
    from_binary (L0 ++ (L1 ++ (L2 ++ L3))) = .ok [a, b, c, d] := by
  have s0 : pyslice (L0 ++ (L1 ++ (L2 ++ L3))) 0 8 = L0 := by
    unfold pyslice
    rw [List.drop_zero]
    exact List.take_left' h0
  have s1 : pyslice (L0 ++ (L1 ++ (L2 ++ L3))) 8 8 = L1 := by
    unfold pyslice
    rw [List.drop_left' h0]
    exact List.take_left' h1
  have s2 : pyslice (L0 ++ (L1 ++ (L2 ++ L3))) 16 8 = L2 := by
    unfold pyslice
    rw [show L0 ++ (L1 ++ (L2 ++ L3)) = (L0 ++ L1) ++ (L2 ++ L3) by
      simp [List.append_assoc]]
    rw [List.drop_left' (by simp [h0, h1])]
    exact List.take_left' h2
  have s3 : pyslice (L0 ++ (L1 ++ (L2 ++ L3))) 24 8 = L3 := by
    unfold pyslice
    rw [show L0 ++ (L1 ++ (L2 ++ L3)) = ((L0 ++ L1) ++ L2) ++ L3 by
      simp [List.append_assoc]]
    rw [List.drop_left' (by simp [h0, h1, h2])]
    exact List.take_of_length_le (le_of_eq h3)
  simp only [from_binary, s0, s1, s2, s3, e0, e1, e2, e3, except_bind_ok]
  rfl

/-- Claim C5: converting a valid 4 octet value to the 32 character binary
string and back with from_binary and to_binary yields the value
unchanged. -/
theorem from_binary_to_binary_roundtrip (o : List Nat)
    (hlen : o.length = 4) (hv : ∀ x ∈ o, x < 256) :
    from_binary (to_binary o) = .ok o := by
  obtain ⟨a, b, c, d, rfl⟩ := list_len4 hlen
  simp only [List.mem_cons, List.not_mem_nil, or_false, forall_eq_or_imp, forall_eq] at hv
  obtain ⟨ha, hb, hc, hd⟩ := hv
  rw [to_binary_four]
  exact from_binary_concat
    (octetBits_length a ha) (octetBits_length b hb)
    (octetBits_length c hc) (octetBits_length d hd)
    (int_base2_octetBits a ha) (int_base2_octetBits b hb)
    (int_base2_octetBits c hc) (int_base2_octetBits d hd)

/-- Claim C1: for every valid 4 octet ip and every contiguous prefix mask,
the decimal magic number method and the binary bitwise method produce the
same subnet id and the same broadcast address, octet for octet. The
binary results are successful parses of exactly the decimal results. -/
theorem decimal_binary_methods_agree (ip mask : List Nat)
    (hip : ip.length = 4) (hm : mask.length = 4)
    (hipv : ∀ x ∈ ip, x < 256) (hmv : ∀ x ∈ mask, x < 256)
    (hcontig : onesThenZeros (to_binary mask) = true) :
    binary_subnet_id ip mask = .ok (decimal_subnet_id ip mask) ∧
    binary_broadcast_address ip mask =
      .ok (decimal_broadcast_address (decimal_subnet_id ip mask) mask) := by
  obtain ⟨a0, a1, a2, a3, rfl⟩ := list_len4 hip
  obtain ⟨m0, m1, m2, m3, rfl⟩ := list_len4 hm
  simp only [List.mem_cons, List.not_mem_nil, or_false, forall_eq_or_imp,
    forall_eq] at hipv hmv
  obtain ⟨ha0, ha1, ha2, ha3⟩ := hipv
  obtain ⟨hb0, hb1, hb2, hb3⟩ := hmv
  rw [to_binary_four] at hcontig
  obtain ⟨hc0, hcr⟩ := onesThenZeros_append _ _ hcontig
  obtain ⟨hc1, hcr2⟩ := onesThenZeros_append _ _ hcr
  obtain ⟨hc2, hc3⟩ := onesThenZeros_append _ _ hcr2
  have hm0 := contig_octet_mem m0 hb0 hc0
  have hm1 := contig_octet_mem m1 hb1 hc1
  have hm2 := contig_octet_mem m2 hb2 hc2
  have hm3 := contig_octet_mem m3 hb3 hc3
  have hsplit : ∀ f : Char → Char → Char,
      List.zipWith f (to_binary [a0, a1, a2, a3]) (to_binary [m0, m1, m2, m3]) =
        List.zipWith f (octetBits a0) (octetBits m0) ++
          (List.zipWith f (octetBits a1) (octetBits m1) ++
            (List.zipWith f (octetBits a2) (octetBits m2) ++
              List.zipWith f (octetBits a3) (octetBits m3))) := by
    intro f
    rw [to_binary_four, to_binary_four]
    rw [List.zipWith_append _ _ _ _ _
      (by rw [octetBits_length a0 ha0, octetBits_length m0 hb0])]
    rw [List.zipWith_append _ _ _ _ _
      (by rw [octetBits_length a1 ha1, octetBits_length m1 hb1])]
    rw [List.zipWith_append _ _ _ _ _
      (by rw [octetBits_length a2 ha2, octetBits_length m2 hb2])]
  have hlen : ∀ (f : Char → Char → Char) (a m : Nat), a < 256 → m < 256 →
      (List.zipWith f (octetBits a) (octetBits m)).length = 8 := by
    intro f a m ha hmm
    rw [List.length_zipWith, octetBits_length a ha, octetBits_length m hmm]
    simp
  constructor
  · unfold binary_subnet_id
    rw [hsplit subnetBit,
      show decimal_subnet_id [a0, a1, a2, a3] [m0, m1, m2, m3] =
        [decimal_subnet_octet a0 m0, decimal_subnet_octet a1 m1,
          decimal_subnet_octet a2 m2, decimal_subnet_octet a3 m3] from rfl]
    exact from_binary_concat
      (hlen _ _ _ ha0 hb0) (hlen _ _ _ ha1 hb1) (hlen _ _ _ ha2 hb2) (hlen _ _ _ ha3 hb3)
      (octet_subnet_int a0 ha0 m0 hm0) (octet_subnet_int a1 ha1 m1 hm1)
      (octet_subnet_int a2 ha2 m2 hm2) (octet_subnet_int a3 ha3 m3 hm3)
  · unfold binary_broadcast_address
    rw [hsplit broadcastBit,
      show decimal_broadcast_address
          (decimal_subnet_id [a0, a1, a2, a3] [m0, m1, m2, m3]) [m0, m1, m2, m3] =
        [decimal_broadcast_octet (decimal_subnet_octet a0 m0) m0,
          decimal_broadcast_octet (decimal_subnet_octet a1 m1) m1,
          decimal_broadcast_octet (decimal_subnet_octet a2 m2) m2,
          decimal_broadcast_octet (decimal_subnet_octet a3 m3) m3] from rfl]
    exact from_binary_concat
      (hlen _ _ _ ha0 hb0) (hlen _ _ _ ha1 hb1) (hlen _ _ _ ha2 hb2) (hlen _ _ _ ha3 hb3)
      (octet_broadcast_int a0 ha0 m0 hm0) (octet_broadcast_int a1 ha1 m1 hm1)
      (octet_broadcast_int a2 ha2 m2 hm2) (octet_broadcast_int a3 ha3 m3 hm3)

/-- Witness for claim C1 at ip 172.16.150.41 with mask 255.255.192.0. -/
theorem decimal_binary_methods_agree_witness :
    ([172, 16, 150, 41] : List Nat).length = 4 ∧
    ([255, 255, 192, 0] : List Nat).length = 4 ∧
    (∀ x ∈ ([172, 16, 150, 41] : List Nat), x < 256) ∧
    (∀ x ∈ ([255, 255, 192, 0] : List Nat), x < 256) ∧
    onesThenZeros (to_binary [255, 255, 192, 0]) = true ∧
    (binary_subnet_id [172, 16, 150, 41] [255, 255, 192, 0] =
      .ok (decimal_subnet_id [172, 16, 150, 41] [255, 255, 192, 0]) ∧
    binary_broadcast_address [172, 16, 150, 41] [255, 255, 192, 0] =
      .ok (decimal_broadcast_address
        (decimal_subnet_id [172, 16, 150, 41] [255, 255, 192, 0]) [255, 255, 192, 0])) :=
  ⟨by decide, by decide, by decide, by decide, by decide,
    decimal_binary_methods_agree [172, 16, 150, 41] [255, 255, 192, 0]
      (by decide) (by decide) (by decide) (by decide) (by decide)⟩

/-- The per octet rules of the decimal method: copy under 255, zero or
255 under 0, and round down to the enclosing magic number block
otherwise, with the broadcast octet carried from the subnet octet. -/
theorem decimal_octet_rules (a m : Nat) (hm : m < 256) :
    (m = 255 → decimal_subnet_octet a m = a ∧
      decimal_broadcast_octet (decimal_subnet_octet a m) m = decimal_subnet_octet a m) ∧
    (m = 0 → decimal_subnet_octet a m = 0 ∧
      decimal_broadcast_octet (decimal_subnet_octet a m) m = 255) ∧
    (m ≠ 255 → m ≠ 0 →
      decimal_subnet_octet a m =
        a / calculate_magic_number m * calculate_magic_number m ∧
      decimal_subnet_octet a m % calculate_magic_number m = 0 ∧
      decimal_subnet_octet a m ≤ a ∧
      a < decimal_subnet_octet a m + calculate_magic_number m ∧
      decimal_broadcast_octet (decimal_subnet_octet a m) m =
        decimal_subnet_octet a m + calculate_magic_number m - 1) := by
  refine ⟨?_, ?_, ?_⟩
  · intro h
    subst h
    exact ⟨rfl, rfl⟩
  · intro h
    subst h
    exact ⟨rfl, rfl⟩
  · intro h255 h0
    have hmg : 0 < calculate_magic_number m := by
      unfold calculate_magic_number
      omega
    have hsub : decimal_subnet_octet a m =
        a / calculate_magic_number m * calculate_magic_number m := by
      simp [decimal_subnet_octet, h255, h0]
    have hbr : decimal_broadcast_octet (decimal_subnet_octet a m) m =
        decimal_subnet_octet a m + calculate_magic_number m - 1 := by
      simp [decimal_broadcast_octet, h255, h0]
    refine ⟨hsub, ?_, ?_, ?_, hbr⟩
    · rw [hsub]
      exact Nat.mul_mod_left _ _
    · rw [hsub]
      exact Nat.div_mul_le_self a _
    · rw [hsub]
      have h2 := Nat.mod_lt a hmg
      calc a = calculate_magic_number m * (a / calculate_magic_number m) +
            a % calculate_magic_number m := (Nat.div_add_mod a _).symm
        _ < calculate_magic_number m * (a / calculate_magic_number m) +
            calculate_magic_number m := Nat.add_lt_add_left h2 _
        _ = a / calculate_magic_number m * calculate_magic_number m +
            calculate_magic_number m := by rw [Nat.mul_comm]

/-- Claim C2: the decimal method computes each octet independently; a 255
mask octet copies the ip octet and carries it into the broadcast, a 0
mask octet gives subnet 0 and broadcast 255, and otherwise the subnet
octet is the largest multiple of the magic number not exceeding the ip
octet, always rounded down, with broadcast one below the next block. -/
theorem decimal_method_per_octet (ip mask : List Nat)
    (hip : ip.length = 4) (hm : mask.length = 4)
    (hmv : ∀ x ∈ mask, x < 256) (i : Nat) (hi : i < 4) :
    (mask.getD i 0 = 255 →
      (decimal_subnet_id ip mask).getD i 0 = ip.getD i 0 ∧
      (decimal_broadcast_address (decimal_subnet_id ip mask) mask).getD i 0 =
        (decimal_subnet_id ip mask).getD i 0) ∧
    (mask.getD i 0 = 0 →
      (decimal_subnet_id ip mask).getD i 0 = 0 ∧
      (decimal_broadcast_address (decimal_subnet_id ip mask) mask).getD i 0 = 255) ∧
    (mask.getD i 0 ≠ 255 → mask.getD i 0 ≠ 0 →
      (decimal_subnet_id ip mask).getD i 0 =
        ip.getD i 0 / calculate_magic_number (mask.getD i 0) *
          calculate_magic_number (mask.getD i 0) ∧
      (decimal_subnet_id ip mask).getD i 0 % calculate_magic_number (mask.getD i 0) = 0 ∧
      (decimal_subnet_id ip mask).getD i 0 ≤ ip.getD i 0 ∧
      ip.getD i 0 <
        (decimal_subnet_id ip mask).getD i 0 + calculate_magic_number (mask.getD i 0) ∧
      (decimal_broadcast_address (decimal_subnet_id ip mask) mask).getD i 0 =
        (decimal_subnet_id ip mask).getD i 0 +
          calculate_magic_number (mask.getD i 0) - 1) := by
  obtain ⟨a0, a1, a2, a3, rfl⟩ := list_len4 hip
  obtain ⟨m0, m1, m2, m3, rfl⟩ := list_len4 hm
  simp only [List.mem_cons, List.not_mem_nil, or_false, forall_eq_or_imp,
    forall_eq] at hmv
  obtain ⟨hb0, hb1, hb2, hb3⟩ := hmv
  interval_cases i
  · exact decimal_octet_rules a0 m0 hb0
  · exact decimal_octet_rules a1 m1 hb1
  · exact decimal_octet_rules a2 m2 hb2
  · exact decimal_octet_rules a3 m3 hb3

/-- Witness for claim C2 at ip 192.168.5.77, mask 255.255.255.224,
octet index 3, the interesting octet with magic number 32. -/
theorem decimal_method_per_octet_witness :
    (3 : Nat) < 4 ∧
    (decimal_subnet_id [192, 168, 5, 77] [255, 255, 255, 224]).getD 3 0 =
      ([192, 168, 5, 77] : List Nat).getD 3 0 /
        calculate_magic_number (([255, 255, 255, 224] : List Nat).getD 3 0) *
        calculate_magic_number (([255, 255, 255, 224] : List Nat).getD 3 0) ∧
    (decimal_subnet_id [192, 168, 5, 77] [255, 255, 255, 224]).getD 3 0 %
      calculate_magic_number (([255, 255, 255, 224] : List Nat).getD 3 0) = 0 ∧
    (decimal_subnet_id [192, 168, 5, 77] [255, 255, 255, 224]).getD 3 0 ≤
      ([192, 168, 5, 77] : List Nat).getD 3 0 ∧
    ([192, 168, 5, 77] : List Nat).getD 3 0 <
      (decimal_subnet_id [192, 168, 5, 77] [255, 255, 255, 224]).getD 3 0 +
        calculate_magic_number (([255, 255, 255, 224] : List Nat).getD 3 0) ∧
    (decimal_broadcast_address
        (decimal_subnet_id [192, 168, 5, 77] [255, 255, 255, 224])
        [255, 255, 255, 224]).getD 3 0 =
      (decimal_subnet_id [192, 168, 5, 77] [255, 255, 255, 224]).getD 3 0 +
        calculate_magic_number (([255, 255, 255, 224] : List Nat).getD 3 0) - 1 :=
  ⟨by decide,
    (decimal_method_per_octet [192, 168, 5, 77] [255, 255, 255, 224]
      (by decide) (by decide) (by decide) 3 (by decide)).2.2 (by decide) (by decide)⟩

/-- Claim C3: the usable range is computed from any subnet id and
broadcast pair by changing only the last octet, up by one on the first
usable address and down by one on the last usable address; the first
three octets and the lengths are unchanged. -/
theorem get_usable_range_spec (s b : List Int) (hs : s.length = 4) (hb : b.length = 4) :
    (get_usable_range s b).1.length = 4 ∧
    (get_usable_range s b).2.length = 4 ∧
    (get_usable_range s b).1.getD 3 0 = s.getD 3 0 + 1 ∧
    (get_usable_range s b).2.getD 3 0 = b.getD 3 0 - 1 ∧
    ∀ j, j < 3 →
      (get_usable_range s b).1.getD j 0 = s.getD j 0 ∧
      (get_usable_range s b).2.getD j 0 = b.getD j 0 := by
  obtain ⟨s0, s1, s2, s3, rfl⟩ := list_len4 hs
  obtain ⟨b0, b1, b2, b3, rfl⟩ := list_len4 hb
  refine ⟨rfl, rfl, rfl, rfl, ?_⟩
  intro j hj
  interval_cases j
  · exact ⟨rfl, rfl⟩
  · exact ⟨rfl, rfl⟩
  · exact ⟨rfl, rfl⟩

/-- Witness for claim C3 at subnet id 10.1.4.0 and broadcast 10.1.5.255. -/
theorem get_usable_range_spec_witness :
    ([10, 1, 4, 0] : List Int).length = 4 ∧
    ([10, 1, 5, 255] : List Int).length = 4 ∧
    ((get_usable_range [10, 1, 4, 0] [10, 1, 5, 255]).1.length = 4 ∧
      (get_usable_range [10, 1, 4, 0] [10, 1, 5, 255]).2.length = 4 ∧
      (get_usable_range [10, 1, 4, 0] [10, 1, 5, 255]).1.getD 3 0 =
        ([10, 1, 4, 0] : List Int).getD 3 0 + 1 ∧
      (get_usable_range [10, 1, 4, 0] [10, 1, 5, 255]).2.getD 3 0 =
        ([10, 1, 5, 255] : List Int).getD 3 0 - 1 ∧
      ∀ j, j < 3 →
        (get_usable_range [10, 1, 4, 0] [10, 1, 5, 255]).1.getD j 0 =
          ([10, 1, 4, 0] : List Int).getD j 0 ∧
        (get_usable_range [10, 1, 4, 0] [10, 1, 5, 255]).2.getD j 0 =
          ([10, 1, 5, 255] : List Int).getD j 0) :=
  ⟨by decide, by decide,
    get_usable_range_spec [10, 1, 4, 0] [10, 1, 5, 255] (by decide) (by decide)⟩

/-- Claim C4: classification by first octet is exhaustive over 0 to 255
and assigns the documented class or reserved tag to every value: 0 and
127 are reserved, 1 to 126 class A, 128 to 191 class B, 192 to 223
class C, 224 to 239 class D, 240 to 255 class E. -/
theorem get_network_class_classification :
    ∀ n ≤ 255,
      (n = 0 → get_network_class n = some .Reserved0) ∧
      (1 ≤ n → n ≤ 126 → get_network_class n = some .A) ∧
      (n = 127 → get_network_class n = some .Reserved127) ∧
      (128 ≤ n → n ≤ 191 → get_network_class n = some .B) ∧
      (192 ≤ n → n ≤ 223 → get_network_class n = some .C) ∧
      (224 ≤ n → n ≤ 239 → get_network_class n = some .D) ∧
      (240 ≤ n → get_network_class n = some .E) ∧
      (get_network_class n).isSome = true := by
  have t0 : ∀ n ≤ 255, n = 0 → get_network_class n = some NetworkClass.Reserved0 := by decide
  have t1 : ∀ n ≤ 255, 1 ≤ n → n ≤ 126 → get_network_class n = some NetworkClass.A := by decide
  have t2 : ∀ n ≤ 255, n = 127 → get_network_class n = some NetworkClass.Reserved127 := by
    decide
  have t3 : ∀ n ≤ 255, 128 ≤ n → n ≤ 191 → get_network_class n = some NetworkClass.B := by
    decide
  have t4 : ∀ n ≤ 255, 192 ≤ n → n ≤ 223 → get_network_class n = some NetworkClass.C := by
    decide
  have t5 : ∀ n ≤ 255, 224 ≤ n → n ≤ 239 → get_network_class n = some NetworkClass.D := by
    decide
  have t6 : ∀ n ≤ 255, 240 ≤ n → get_network_class n = some NetworkClass.E := by decide
  have t7 : ∀ n ≤ 255, (get_network_class n).isSome = true := by decide
  intro n hn
  exact ⟨t0 n hn, t1 n hn, t2 n hn, t3 n hn, t4 n hn, t5 n hn, t6 n hn, t7 n hn⟩

/-- Witness for claim C4 at first octet 130, class B. -/
theorem get_network_class_classification_witness :
    (130 : Nat) ≤ 255 ∧ get_network_class 130 = some NetworkClass.B :=
  ⟨by decide,
    (get_network_class_classification 130 (by decide)).2.2.2.1 (by decide) (by decide)⟩

/-- Claim C7 counterexample: calculate_magic_number contains no assertion
and does not fail on the precondition violating arguments 0 and 255; it
returns 256 and 1 there, exactly 256 minus the argument. -/
theorem calculate_magic_number_no_failure :
    calculate_magic_number 0 = 256 ∧ calculate_magic_number 255 = 1 := by decide

/-- Claim C7 amended: calculate_magic_number returns 256 minus its
argument for every octet value including 0 and 255, so the sum with the
argument is always 256; no precondition is checked and no failure
occurs. -/
theorem calculate_magic_number_arith :
    ∀ v ≤ 255, calculate_magic_number v = 256 - v ∧
      calculate_magic_number v + v = 256 := by decide

/-- Witness for the amended claim C7 at the mask octet 192. -/
theorem calculate_magic_number_arith_witness :
    (192 : Nat) ≤ 255 ∧ calculate_magic_number 192 = 256 - 192 ∧
      calculate_magic_number 192 + 192 = 256 :=
  ⟨by decide, calculate_magic_number_arith 192 (by decide)⟩

/-- Claim C9: for every magic number from 1 to 255 the number line
boundary labels strictly increase, start at 0 and end at 255, with 255
appended exactly when it is not already a multiple of the magic
number. -/
theorem draw_number_line_labels_spec :
    ∀ d ≤ 255, 1 ≤ d →
      strictIncrB (draw_number_line_labels d) = true ∧
      (draw_number_line_labels d).head? = some 0 ∧
      (draw_number_line_labels d).getLast? = some 255 ∧
      (255 % d ≠ 0 → draw_number_line_labels d = numberLineBase d ++ [255]) ∧
      (255 % d = 0 → draw_number_line_labels d = numberLineBase d) := by decide

/-- Witness for claim C9 at magic number 32. -/
theorem draw_number_line_labels_spec_witness :
    (32 : Nat) ≤ 255 ∧ (1 : Nat) ≤ 32 ∧
    (strictIncrB (draw_number_line_labels 32) = true ∧
      (draw_number_line_labels 32).head? = some 0 ∧
      (draw_number_line_labels 32).getLast? = some 255 ∧
      (255 % 32 ≠ 0 → draw_number_line_labels 32 = numberLineBase 32 ++ [255]) ∧
      (255 % 32 = 0 → draw_number_line_labels 32 = numberLineBase 32)) :=
  ⟨by decide, by decide, draw_number_line_labels_spec 32 (by decide) (by decide)⟩

/-- Claim C10: get_usable_range adjusts the last octet unconditionally,
with no guard on subnet size and no error reporting: under the mask
255.255.255.255 an ip ending in 255 yields a first usable last octet of
256 and an ip ending in 0 yields a last usable last octet of minus 1,
both outside the octet range, and for subnets of size one or two the
first usable address exceeds the last usable address. -/
theorem get_usable_range_unguarded :
    (∀ s b : List Int, get_usable_range s b =
      (s.set 3 (s.getD 3 0 + 1), b.set 3 (b.getD 3 0 - 1))) ∧
    decimal_subnet_id [192, 168, 1, 255] [255, 255, 255, 255] = [192, 168, 1, 255] ∧
    decimal_broadcast_address [192, 168, 1, 255] [255, 255, 255, 255] = [192, 168, 1, 255] ∧
    (get_usable_range [192, 168, 1, 255] [192, 168, 1, 255]).1 = [192, 168, 1, 256] ∧
    (get_usable_range [192, 168, 1, 255] [192, 168, 1, 255]).1.getD 3 0 > 255 ∧
    (get_usable_range [192, 168, 1, 255] [192, 168, 1, 255]).1.getD 3 0 >
      (get_usable_range [192, 168, 1, 255] [192, 168, 1, 255]).2.getD 3 0 ∧
    decimal_subnet_id [10, 0, 0, 0] [255, 255, 255, 255] = [10, 0, 0, 0] ∧
    decimal_broadcast_address [10, 0, 0, 0] [255, 255, 255, 255] = [10, 0, 0, 0] ∧
    (get_usable_range [10, 0, 0, 0] [10, 0, 0, 0]).2 = [10, 0, 0, -1] ∧
    (get_usable_range [10, 0, 0, 0] [10, 0, 0, 0]).2.getD 3 0 < 0 ∧
    decimal_subnet_id [10, 0, 0, 0] [255, 255, 255, 254] = [10, 0, 0, 0] ∧
    decimal_broadcast_address [10, 0, 0, 0] [255, 255, 255, 254] = [10, 0, 0, 1] ∧
    (get_usable_range [10, 0, 0, 0] [10, 0, 0, 1]).1.getD 3 0 >
      (get_usable_range [10, 0, 0, 0] [10, 0, 0, 1]).2.getD 3 0 :=
  ⟨fun s b => rfl, by decide⟩

/-- Claim C6: find_interesting_octet returns the index of the first
octet that is neither 0 nor 255, and returns none exactly when every
octet is 0 or 255. -/
theorem find_interesting_octet_spec (mask : List Nat) (h : mask.length = 4) :
    (find_interesting_octet mask = none ↔ ∀ x ∈ mask, x = 0 ∨ x = 255) ∧
    (∀ i, find_interesting_octet mask = some i →
      i < 4 ∧ ¬(mask.getD i 0 = 0 ∨ mask.getD i 0 = 255) ∧
      ∀ j, j < i → (mask.getD j 0 = 0 ∨ mask.getD j 0 = 255)) := by
  obtain ⟨m0, m1, m2, m3, rfl⟩ := list_len4 h
  rw [show find_interesting_octet [m0, m1, m2, m3] =
      (if ¬(m0 = 0 ∨ m0 = 255) then some 0
        else if ¬(m1 = 0 ∨ m1 = 255) then some 1
        else if ¬(m2 = 0 ∨ m2 = 255) then some 2
        else if ¬(m3 = 0 ∨ m3 = 255) then some 3
        else none) from rfl]
  by_cases h0 : m0 = 0 ∨ m0 = 255
  · rw [if_neg (not_not_intro h0)]
    by_cases h1 : m1 = 0 ∨ m1 = 255
    · rw [if_neg (not_not_intro h1)]
      by_cases h2 : m2 = 0 ∨ m2 = 255
      · rw [if_neg (not_not_intro h2)]
        by_cases h3 : m3 = 0 ∨ m3 = 255
        · rw [if_neg (not_not_intro h3)]
          refine ⟨⟨fun _ => ?_, fun _ => rfl⟩, fun i hi => Option.noConfusion hi⟩
          intro x hx
          simp only [List.mem_cons, List.not_mem_nil, or_false] at hx
          rcases hx with rfl | rfl | rfl | rfl
          · exact h0
          · exact h1
          · exact h2
          · exact h3
        · rw [if_pos h3]
          refine ⟨⟨fun hn => Option.noConfusion hn,
            fun hall => absurd (hall m3 (by simp)) h3⟩, ?_⟩
          intro i hi
          injection hi with hi
          subst hi
          refine ⟨by omega, h3, ?_⟩
          intro j hj
          have hj012 : j = 0 ∨ j = 1 ∨ j = 2 := by omega
          rcases hj012 with rfl | rfl | rfl
          · exact h0
          · exact h1
          · exact h2
      · rw [if_pos h2]
        refine ⟨⟨fun hn => Option.noConfusion hn,
          fun hall => absurd (hall m2 (by simp)) h2⟩, ?_⟩
        intro i hi
        injection hi with hi
        subst hi
        refine ⟨by omega, h2, ?_⟩
        intro j hj
        have hj01 : j = 0 ∨ j = 1 := by omega
        rcases hj01 with rfl | rfl
        · exact h0
        · exact h1
    · rw [if_pos h1]
      refine ⟨⟨fun hn => Option.noConfusion hn,
        fun hall => absurd (hall m1 (by simp)) h1⟩, ?_⟩
      intro i hi
      injection hi with hi
      subst hi
      refine ⟨by omega, h1, ?_⟩
      intro j hj
      have hj0 : j = 0 := by omega
      subst hj0
      exact h0
  · rw [if_pos h0]
    refine ⟨⟨fun hn => Option.noConfusion hn,
      fun hall => absurd (hall m0 (by simp)) h0⟩, ?_⟩
    intro i hi
    injection hi with hi
    subst hi
    exact ⟨by omega, h0, fun j hj => absurd hj (Nat.not_lt_zero j)⟩

/-- Witness for claim C6 at the mask 255.255.192.0, interesting octet 2. -/
theorem find_interesting_octet_spec_witness :
    ([255, 255, 192, 0] : List Nat).length = 4 ∧
    ((find_interesting_octet [255, 255, 192, 0] = none ↔
        ∀ x ∈ ([255, 255, 192, 0] : List Nat), x = 0 ∨ x = 255) ∧
      (∀ i, find_interesting_octet [255, 255, 192, 0] = some i →
        i < 4 ∧
        ¬(([255, 255, 192, 0] : List Nat).getD i 0 = 0 ∨
          ([255, 255, 192, 0] : List Nat).getD i 0 = 255) ∧
        ∀ j, j < i →
          (([255, 255, 192, 0] : List Nat).getD j 0 = 0 ∨
            ([255, 255, 192, 0] : List Nat).getD j 0 = 255))) :=
  ⟨by decide, find_interesting_octet_spec [255, 255, 192, 0] (by decide)⟩

/-- A nonempty string of binary digits parses successfully. -/
theorem int_base2_ok_of (s : List Char) (hne : s ≠ [])
    (hb : ∀ c ∈ s, c = '0' ∨ c = '1') : ∃ v, int_base2 s = .ok v := by
  cases s with
  | nil => exact absurd rfl hne
  | cons c r =>
    have hr : ∀ x ∈ r, x = '0' ∨ x = '1' := fun x hx => hb x (by simp [hx])
    rcases hb c (by simp) with rfl | rfl
    · obtain ⟨v, hv⟩ := parseBinRest_ok r hr 0
      have hps : parseBinStart ('0' :: r) = some v := by
        rw [parseBinStart.eq_def]
        simp [hv]
      exact ⟨v, int_base2_eq_parse _ hb v hps⟩
    · obtain ⟨v, hv⟩ := parseBinRest_ok r hr 1
      have hps : parseBinStart ('1' :: r) = some v := by
        rw [parseBinStart.eq_def]
        simp [hv]
      exact ⟨v, int_base2_eq_parse _ hb v hps⟩

/-- The empty string makes the modelled int call fail. -/
theorem int_base2_error_empty :
    int_base2 [] = .error "invalid literal for int with base 2" := by decide

/-- A successful from_binary forces all four slices to parse. -/
theorem slices_ok_of_from_binary_ok {s : List Char} {v : List Nat}
    (h : from_binary s = .ok v) :
    (∃ w, int_base2 (pyslice s 0 8) = .ok w) ∧
    (∃ w, int_base2 (pyslice s 8 8) = .ok w) ∧
    (∃ w, int_base2 (pyslice s 16 8) = .ok w) ∧
    (∃ w, int_base2 (pyslice s 24 8) = .ok w) := by
  cases h0 : int_base2 (pyslice s 0 8) with
  | error e =>
    simp only [from_binary, h0, except_bind_error] at h
    exact Except.noConfusion h
  | ok w0 =>
    cases h1 : int_base2 (pyslice s 8 8) with
    | error e =>
      simp only [from_binary, h0, h1, except_bind_ok, except_bind_error] at h
      exact Except.noConfusion h
    | ok w1 =>
      cases h2 : int_base2 (pyslice s 16 8) with
      | error e =>
        simp only [from_binary, h0, h1, h2, except_bind_ok, except_bind_error] at h
        exact Except.noConfusion h
      | ok w2 =>
        cases h3 : int_base2 (pyslice s 24 8) with
        | error e =>
          simp only [from_binary, h0, h1, h2, h3, except_bind_ok, except_bind_error] at h
          exact Except.noConfusion h
        | ok w3 =>
          exact ⟨⟨w0, rfl⟩, ⟨w1, rfl⟩, ⟨w2, rfl⟩, ⟨w3, rfl⟩⟩

/-- If any of the four slices fails to parse, from_binary fails. -/
theorem from_binary_error_total {s : List Char}
    (h : (∃ e, int_base2 (pyslice s 0 8) = .error e) ∨
      (∃ e, int_base2 (pyslice s 8 8) = .error e) ∨
      (∃ e, int_base2 (pyslice s 16 8) = .error e) ∨
      (∃ e, int_base2 (pyslice s 24 8) = .error e)) :
    ∃ e, from_binary s = .error e := by
  cases hfb : from_binary s with
  | error e => exact ⟨e, rfl⟩
  | ok v =>
    obtain ⟨⟨w0, k0⟩, ⟨w1, k1⟩, ⟨w2, k2⟩, ⟨w3, k3⟩⟩ := slices_ok_of_from_binary_ok hfb
    rcases h with ⟨e, he⟩ | ⟨e, he⟩ | ⟨e, he⟩ | ⟨e, he⟩
    · rw [he] at k0
      exact Except.noConfusion k0
    · rw [he] at k1
      exact Except.noConfusion k1
    · rw [he] at k2
      exact Except.noConfusion k2
    · rw [he] at k3
      exact Except.noConfusion k3

/-- Claim C8 counterexample: a 33 character all zero string does not have
length 32, yet from_binary parses it successfully instead of failing. -/
theorem from_binary_accepts_wrong_length :
    from_binary (List.replicate 33 '0') = .ok [0, 0, 0, 0] ∧
    (List.replicate 33 '0').length ≠ 32 := by decide

/-- Claim C8 amended: from_binary performs no length or character
validation of its own: it reads only the four 8 character slices at
offsets 0, 8, 16 and 24, so characters past position 32 are ignored and
a short final slice parses as a small value. Any string of 25 or more
binary digit characters parses successfully although its length is not
32, while every string of length at most 24 fails, because its final
slice is empty and the int conversion rejects an empty string. A
character other than 0 and 1 among the first 32 need not cause a
failure, since the int conversion also accepts sign, 0b marker,
underscore and whitespace forms, as in the leading plus sign below. -/
theorem from_binary_failure_characterization :
    (∀ s : List Char, (∀ c ∈ s, c = '0' ∨ c = '1') → 25 ≤ s.length →
      ∃ v, from_binary s = .ok v) ∧
    (∀ s : List Char, s.length ≤ 24 → ∃ e, from_binary s = .error e) ∧
    from_binary (List.replicate 31 '0') = .ok [0, 0, 0, 0] ∧
    from_binary (List.replicate 40 '1') = .ok [255, 255, 255, 255] ∧
    from_binary (List.replicate 32 '0' ++ ['x']) = .ok [0, 0, 0, 0] ∧
    from_binary ('+' :: List.replicate 31 '0') = .ok [0, 0, 0, 0] := by
  refine ⟨?_, ?_, by decide, by decide, by decide, by decide⟩
  · intro s hb hlen
    have key : ∀ k, k ≤ 24 → ∃ v, int_base2 (pyslice s k 8) = .ok v := by
      intro k hk
      apply int_base2_ok_of
      · intro hempty
        have hl := congrArg List.length hempty
        simp only [pyslice, List.length_take, List.length_drop,
          List.length_nil] at hl
        omega
      · intro c hc
        exact hb c (List.drop_subset _ _ (List.take_subset _ _ hc))
    obtain ⟨v0, h0⟩ := key 0 (by omega)
    obtain ⟨v1, h1⟩ := key 8 (by omega)
    obtain ⟨v2, h2⟩ := key 16 (by omega)
    obtain ⟨v3, h3⟩ := key 24 (by omega)
    refine ⟨[v0, v1, v2, v3], ?_⟩
    simp only [from_binary, h0, h1, h2, h3, except_bind_ok]
    rfl
  · intro s hlen
    apply from_binary_error_total
    right; right; right
    have hnil : pyslice s 24 8 = [] := by
      unfold pyslice
      rw [List.drop_eq_nil_of_le (by omega)]
      rfl
    rw [hnil]
    exact ⟨_, int_base2_error_empty⟩

/-- Witness for the amended claim C8 at a 26 character all zero string,
which is accepted, and implicitly at the failing slices covered by the
concrete conjuncts of the theorem itself. -/
theorem from_binary_failure_characterization_witness :
    (∀ c ∈ List.replicate 26 '0', c = '0' ∨ c = '1') ∧
    25 ≤ (List.replicate 26 '0').length ∧
    ∃ v, from_binary (List.replicate 26 '0') = .ok v :=
  ⟨by decide, by decide,
    from_binary_failure_characterization.1 (List.replicate 26 '0') (by decide) (by decide)⟩

/-- Witness for claim C5 at the concrete octets 172.16.150.41. -/
theorem from_binary_to_binary_roundtrip_witness :
    ([172, 16, 150, 41] : List Nat).length = 4 ∧
    (∀ x ∈ ([172, 16, 150, 41] : List Nat), x < 256) ∧
    from_binary (to_binary [172, 16, 150, 41]) = .ok [172, 16, 150, 41] :=
  ⟨by decide, by decide,
    from_binary_to_binary_roundtrip [172, 16, 150, 41] (by decide) (by decide)⟩
